import Mathlib

/-!
# The event-stream handler of the routing API

A shallow embedding of `handlers/event_stream_handler.go`: the translation of
store notifications into server-sent events (`stringifyEventType` and the
`eventType` switch of `EventStream`) and the handler itself, as a function from
the choices its `select` makes to the trace of effects it performs.
-/

namespace RoutingApi

/-! ## Data model -/

/-- Payloads are Go byte slices. -/
abbrev Bytes := List UInt8

/-- Modelled from the spec: the change kinds of `storeadapter.EventType`, whose
declaration is not among the sources. The spec gives the closed set Create,
Update, Delete, Expire, Invalid; the Go type is an integer type, so `other`
stands for every value outside that set. -/
inductive EventType where
  | InvalidEvent
  | CreateEvent
  | UpdateEvent
  | DeleteEvent
  | ExpireEvent
  | other (code : Nat)
  deriving DecidableEq, Repr

/-- Modelled from the spec: a store node, of which the handler reads only the
payload `Value`. -/
structure StoreNode where
  Value : Bytes
  deriving DecidableEq, Repr

/-- Modelled from the spec: a raw change notification (`storeadapter.WatchEvent`).
`Node` and `PrevNode` are pointers in the source, so either may be nil: `none`. -/
structure WatchEvent where
  Type_ : EventType
  Node : Option StoreNode
  PrevNode : Option StoreNode
  deriving DecidableEq, Repr

/-- Modelled from the spec: the wire event handed to the transport, the three
fields of `sse.Event` that `EventStream` sets (lines 79-83). -/
structure Event where
  ID : String
  Name : String
  Data : Bytes
  deriving DecidableEq, Repr

/-! ## Event translation -/

/-- The function `stringifyEventType` (lines 106-119): the name of a change kind
and the error, `none` for a nil error. -/
def stringifyEventType (eventType : EventType) : String × Option String :=
  match eventType with
  | .InvalidEvent => ("Invalid", none)
  | .CreateEvent => ("Create", none)
  | .UpdateEvent => ("Update", none)
  | .DeleteEvent => ("Delete", none)
  | .ExpireEvent => ("Delete", none)
  | .other _ => ("", some "Unknown event type")

/-- The pointer of a notification that a case of the switch dereferences. -/
inductive NodeRef where
  | Node
  | PrevNode
  deriving DecidableEq, Repr

/-- The `switch eventType` of lines 68-77: which node the selected case reads
for `nodeValue` (none when no case applies, `nodeValue` then stays nil) and the
value of `eventType` after the switch. -/
def switchEventType (eventType : String) : Option NodeRef × String :=
  if eventType = "Delete" then (some .PrevNode, eventType)
  else if eventType = "Create" then (some .Node, "Upsert")
  else if eventType = "Update" then (some .Node, "Upsert")
  else (none, eventType)

/-- The pointer held in the given field of a notification. -/
def WatchEvent.deref (event : WatchEvent) : NodeRef → Option StoreNode
  | .Node => event.Node
  | .PrevNode => event.PrevNode

/-- What lines 62-77 make of one notification. -/
inductive Translation where
  /-- The handler goes on to write an event with this name and data. -/
  | event (name : String) (data : Bytes)
  /-- The handler returns at line 64. -/
  | fails
  /-- A nil `Node` or `PrevNode` is dereferenced: the handler panics. -/
  | nilDereference
  deriving DecidableEq, Repr

/-- Lines 62-77 of `EventStream`: `stringifyEventType`, the guard of line 63,
then the switch with its payload read. -/
def translateEvent (event : WatchEvent) : Translation :=
  let r := stringifyEventType event.Type_
  if r.1 = "Invalid" ∨ r.2.isSome then .fails
  else
    let s := switchEventType r.1
    match s.1 with
    | none => .event s.2 []
    | some ref =>
      match event.deref ref with
      | none => .nilDereference
      | some node => .event s.2 node.Value

/-- The node that handling a notification reads, if it reads one. -/
def payloadRead (event : WatchEvent) : Option NodeRef :=
  let r := stringifyEventType event.Type_
  if r.1 = "Invalid" ∨ r.2.isSome then none
  else (switchEventType r.1).1

/-! ## The handler -/

/-- The signed 64-bit range of a Go `int` on the 64-bit targets the service is
built for (the suite builds it with the race detector): the value an `int`
holds after arithmetic that yields the mathematical result `x`. -/
def wrapInt (x : Int) : Int :=
  (x + 2 ^ 63) % 2 ^ 64 - 2 ^ 63

/-- The decimal string `strconv.Itoa` gives for an `int`. -/
def Itoa (i : Int) : String :=
  match i with
  | .ofNat n => Nat.repr n
  | .negSucc n => "-" ++ Nat.repr (n + 1)

/-- The effects of the handler on its collaborators, in the order performed. -/
inductive Effect where
  /-- The call `handleUnauthorizedError(w, err, log)`. -/
  | unauthorizedError (err : String)
  /-- The call `h.db.WatchRouteChanges()`. -/
  | WatchRouteChanges
  /-- The call `h.stats.GaugeDelta(stat, delta, 1.0)`; the rate is the constant
  1.0 at both call sites and is left out. -/
  | GaugeDelta (stat : String) (delta : Int)
  /-- The call `w.Header().Add(key, value)`. -/
  | HeaderAdd (key value : String)
  /-- The call `w.WriteHeader(status)`. -/
  | WriteHeader (status : Nat)
  /-- The call `flusher.Flush()`. -/
  | Flush
  /-- The call `sse.Event{...}.Write(w)` and whether it returned a nil error. -/
  | eventWrite (event : Event) (ok : Bool)
  /-- The call `log.Error(message, err)`. -/
  | logError (message err : String)
  /-- The call `log.Info(message)`. -/
  | logInfo (message : String)
  /-- The send `cancelChan <- value`, which the watch port takes. -/
  | cancelSend (value : Bool)
  deriving DecidableEq, Repr

/-- The case that the `select` of line 60 takes in one round of the loop. -/
inductive Selected where
  /-- A notification from `resultChan`; `writeOk` tells whether the transport
  accepts the event written for it. -/
  | notification (event : WatchEvent) (writeOk : Bool)
  /-- An error from `errChan`. -/
  | watchError (err : String)
  /-- The stop channel of the handler is ready. -/
  | stop
  /-- The close notifier of the connection is ready. -/
  | closed
  deriving DecidableEq, Repr

/-- Where the handler stands once the given choices are used up. -/
inductive Outcome where
  /-- Returned at line 40. -/
  | unauthorized
  /-- Returned at line 64. -/
  | translationFailed
  /-- Returned at line 94. -/
  | storeErrored
  /-- Returned at line 98. -/
  | externallyStopped
  /-- Returned at line 101. -/
  | clientDisconnected
  /-- Panicked on a nil node at line 70, 72 or 75. -/
  | nilDereference
  /-- Still in the loop, waiting in the `select` with this value of `eventID`. -/
  | streaming (eventID : Int)
  deriving DecidableEq, Repr

/-- The handler has left `EventStream`, by a return or a panic. -/
def Outcome.finished : Outcome → Bool
  | .streaming _ => false
  | _ => true

/-- A run of the handler: the effects performed and where it stands. -/
structure Run where
  trace : List Effect
  outcome : Outcome
  deriving DecidableEq, Repr

/-- The run `r` preceded by the effects `es`. -/
def Run.after (es : List Effect) (r : Run) : Run :=
  ⟨es ++ r.trace, r.outcome⟩

/-- The loop of lines 59-103, from the given value of `eventID`, under the given
choices of the `select`. A failed write leaves the `select` only (the `break` of
line 86), so the loop goes on with `eventID` unchanged and without a flush. -/
def streamLoop (eventID : Int) : List Selected → Run
  | [] => ⟨[], .streaming eventID⟩
  | .notification event writeOk :: rest =>
    match translateEvent event with
    | .fails => ⟨[], .translationFailed⟩
    | .nilDereference => ⟨[], .nilDereference⟩
    | .event name data =>
      if writeOk then
        (streamLoop (wrapInt (eventID + 1)) rest).after
          [.eventWrite ⟨Itoa eventID, name, data⟩ true, .Flush]
      else
        (streamLoop eventID rest).after [.eventWrite ⟨Itoa eventID, name, data⟩ false]
  | .watchError err :: _ => ⟨[.logError "watch-error" err], .storeErrored⟩
  | .stop :: _ => ⟨[.logInfo "event-stream-stopped", .cancelSend true], .externallyStopped⟩
  | .closed :: _ => ⟨[.logInfo "connection-closed"], .clientDisconnected⟩

/-- The handler with its token decoder: `DecodeToken header scope` is the error
returned, `none` for nil. -/
structure EventStreamHandler where
  DecodeToken : String → String → Option String

/-- The request, of which the handler reads header values (`req.Header.Get`). -/
structure Request where
  Header : String → String

/-- The effects set up between authorization and the loop (lines 45-56), the
call deferred at line 48 apart. -/
def openStream : List Effect :=
  [.WatchRouteChanges,
   .GaugeDelta "total_subscriptions" 1,
   .HeaderAdd "Content-Type" "text/event-stream; charset=utf-8",
   .HeaderAdd "Cache-Control" "no-cache, no-store, must-revalidate",
   .HeaderAdd "Connection" "keep-alive",
   .WriteHeader 200,
   .Flush]

/-- The deferred call of line 48, run when the handler leaves the function, by
a return or by a panic; it has not run while the handler waits in the loop. -/
def deferred (o : Outcome) : List Effect :=
  if o.finished then [.GaugeDelta "total_subscriptions" (-1)] else []

/-- The method `EventStream` (lines 34-104). `AdminRouteScope` is the scope
constant of the package, declared outside the sources at hand; `choices` are
the cases its `select` takes, round after round. The response writer is the
one the HTTP server hands over, an `http.Flusher` and an `http.CloseNotifier`,
so the type assertions of lines 42-43 hold. -/
def EventStream (AdminRouteScope : String) (h : EventStreamHandler) (req : Request)
    (choices : List Selected) : Run :=
  match h.DecodeToken (req.Header "Authorization") AdminRouteScope with
  | some err => ⟨[.unauthorizedError err], .unauthorized⟩
  | none =>
    let r := streamLoop 0 choices
    ⟨openStream ++ r.trace ++ deferred r.outcome, r.outcome⟩

/-! ## Observations on a trace -/

/-- The events the transport accepted, in the order written. -/
def writtenEvents (trace : List Effect) : List Event :=
  trace.filterMap fun e =>
    match e with
    | .eventWrite event true => some event
    | _ => none

/-- Every write of an event attempted, accepted or not. -/
def attemptedEvents (trace : List Effect) : List Event :=
  trace.filterMap fun e =>
    match e with
    | .eventWrite event _ => some event
    | _ => none

/-- The calls made to the accounting sink, in order. -/
def accountingCalls (trace : List Effect) : List (String × Int) :=
  trace.filterMap fun e =>
    match e with
    | .GaugeDelta stat delta => some (stat, delta)
    | _ => none

/-- The number of sends on the cancel channel. -/
def cancelWrites (trace : List Effect) : Nat :=
  (trace.filter fun e =>
    match e with
    | .cancelSend _ => true
    | _ => false).length

/-! ## Scenarios -/

/-- The payload "route-1", as bytes. -/
def route1 : Bytes := [114, 111, 117, 116, 101, 45, 49]

/-- The payload "route-1-v2", as bytes. -/
def route1v2 : Bytes := [114, 111, 117, 116, 101, 45, 49, 45, 118, 50]

/-- A handler whose token decoder accepts every credential. -/
def acceptAll : EventStreamHandler := ⟨fun _ _ => none⟩

/-- A handler whose token decoder rejects every credential. -/
def rejectAll : EventStreamHandler := ⟨fun _ _ => some "token invalid"⟩

/-- A request that carries the bearer credential "bearer token". -/
def someRequest : Request := ⟨fun _ => "bearer token"⟩

/-- The store created a route with payload "route-1". -/
def created : WatchEvent := ⟨.CreateEvent, some ⟨route1⟩, none⟩

/-- The store updated the route to "route-1-v2". -/
def updated : WatchEvent := ⟨.UpdateEvent, some ⟨route1v2⟩, some ⟨route1⟩⟩

/-- The store deleted the route whose last payload was "route-1-v2". -/
def deleted : WatchEvent := ⟨.DeleteEvent, none, some ⟨route1v2⟩⟩

/-- The store sent a notification of the Invalid kind. -/
def invalid : WatchEvent := ⟨.InvalidEvent, none, none⟩

/-! ## The data-model invariant and the translation of the spec -/

/-- The invariant of the data model: the new value is there for Create and
Update, the previous value for Delete and Expire. -/
def WatchEvent.wellFormed (event : WatchEvent) : Bool :=
  match event.Type_ with
  | .CreateEvent => event.Node.isSome
  | .UpdateEvent => event.Node.isSome
  | .DeleteEvent => event.PrevNode.isSome
  | .ExpireEvent => event.PrevNode.isSome
  | _ => true

/-- A notification for which the handler goes on to write an event. -/
def translatable (event : WatchEvent) : Bool :=
  match translateEvent event with
  | .event _ _ => true
  | _ => false

/-- The wire event for a notification that is the `i`-th to be written: its
translation, numbered `i` in decimal. -/
def wireEvent (i : Nat) (event : WatchEvent) : Option Event :=
  match translateEvent event with
  | .event name data => some ⟨Nat.repr i, name, data⟩
  | _ => none

/-! ## Lemmas on the translation -/

theorem translateEvent_name (event : WatchEvent) (name : String) (data : Bytes)
    (h : translateEvent event = .event name data) : name = "Upsert" ∨ name = "Delete" := by
  obtain ⟨ty, n, p⟩ := event
  cases ty <;> cases n <;> cases p <;>
    simp [translateEvent, stringifyEventType, switchEventType, WatchEvent.deref] at h <;>
    simp [← h.1]

theorem translateEvent_nilDereference_iff (event : WatchEvent) :
    translateEvent event = .nilDereference ↔
      ∃ ref, payloadRead event = some ref ∧ event.deref ref = none := by
  obtain ⟨ty, n, p⟩ := event
  cases ty <;> cases n <;> cases p <;>
    simp [translateEvent, payloadRead, stringifyEventType, switchEventType, WatchEvent.deref]


/-! ## Lemmas on the loop -/

theorem wrapInt_succ (n : Nat) (h : n + 1 < 2 ^ 63) :
    wrapInt ((n : Int) + 1) = ((n + 1 : Nat) : Int) := by
  unfold wrapInt
  push_cast
  omega

theorem Itoa_natCast (n : Nat) : Itoa (n : Int) = Nat.repr n := rfl

theorem streamLoop_nil (eventID : Int) : streamLoop eventID [] = ⟨[], .streaming eventID⟩ := by
  simp [streamLoop]

theorem streamLoop_fails (eventID : Int) (event : WatchEvent) (writeOk : Bool)
    (rest : List Selected) (h : translateEvent event = .fails) :
    streamLoop eventID (.notification event writeOk :: rest) = ⟨[], .translationFailed⟩ := by
  simp [streamLoop, h]

theorem streamLoop_nilDereference (eventID : Int) (event : WatchEvent) (writeOk : Bool)
    (rest : List Selected) (h : translateEvent event = .nilDereference) :
    streamLoop eventID (.notification event writeOk :: rest) = ⟨[], .nilDereference⟩ := by
  simp [streamLoop, h]

theorem streamLoop_written (eventID : Int) (event : WatchEvent) (rest : List Selected)
    (name : String) (data : Bytes) (h : translateEvent event = .event name data) :
    streamLoop eventID (.notification event true :: rest) =
      (streamLoop (wrapInt (eventID + 1)) rest).after
        [.eventWrite ⟨Itoa eventID, name, data⟩ true, .Flush] := by
  simp [streamLoop, h]

theorem streamLoop_writeFailed (eventID : Int) (event : WatchEvent) (rest : List Selected)
    (name : String) (data : Bytes) (h : translateEvent event = .event name data) :
    streamLoop eventID (.notification event false :: rest) =
      (streamLoop eventID rest).after [.eventWrite ⟨Itoa eventID, name, data⟩ false] := by
  simp [streamLoop, h]

/-- While the loop is still waiting after the choices `pre`, further choices
continue the run from the value of `eventID` reached. -/
theorem streamLoop_append (pre rest : List Selected) :
    ∀ (n m : Int), (streamLoop n pre).outcome = .streaming m →
      streamLoop n (pre ++ rest) = (streamLoop m rest).after (streamLoop n pre).trace := by
  induction pre with
  | nil =>
    intro n m h
    simp [streamLoop, Run.after] at h ⊢
    rw [h]
  | cons s pre ih =>
    intro n m h
    cases s with
    | notification event writeOk =>
      cases ht : translateEvent event with
      | fails => simp [streamLoop, ht] at h
      | nilDereference => simp [streamLoop, ht] at h
      | event name data =>
        cases writeOk with
        | true =>
          rw [streamLoop_written n event pre name data ht] at h ⊢
          rw [List.cons_append, streamLoop_written n event (pre ++ rest) name data ht]
          rw [ih _ m (by simpa [Run.after] using h)]
          simp [Run.after]
        | false =>
          rw [streamLoop_writeFailed n event pre name data ht] at h ⊢
          rw [List.cons_append, streamLoop_writeFailed n event (pre ++ rest) name data ht]
          rw [ih _ m (by simpa [Run.after] using h)]
          simp [Run.after]
    | watchError err => simp [streamLoop] at h
    | stop => simp [streamLoop] at h
    | closed => simp [streamLoop] at h

/-- Once the handler has left the loop, further choices change nothing. -/
theorem streamLoop_append_finished (pre rest : List Selected) :
    ∀ (n : Int), (streamLoop n pre).outcome.finished = true →
      streamLoop n (pre ++ rest) = streamLoop n pre := by
  induction pre with
  | nil => intro n h; simp [streamLoop, Outcome.finished] at h
  | cons s pre ih =>
    intro n h
    cases s with
    | notification event writeOk =>
      cases ht : translateEvent event with
      | fails => simp [streamLoop, ht]
      | nilDereference => simp [streamLoop, ht]
      | event name data =>
        cases writeOk with
        | true =>
          rw [streamLoop_written n event pre name data ht] at h ⊢
          rw [List.cons_append, streamLoop_written n event (pre ++ rest) name data ht]
          rw [ih _ (by simpa [Run.after] using h)]
        | false =>
          rw [streamLoop_writeFailed n event pre name data ht] at h ⊢
          rw [List.cons_append, streamLoop_writeFailed n event (pre ++ rest) name data ht]
          rw [ih _ (by simpa [Run.after] using h)]
    | watchError err => simp [streamLoop]
    | stop => simp [streamLoop]
    | closed => simp [streamLoop]


/-! ## Lemmas on what the loop leaves in the trace -/

/-- The loop itself makes no call to the accounting sink. -/
theorem accountingCalls_streamLoop (choices : List Selected) :
    ∀ n : Int, accountingCalls (streamLoop n choices).trace = [] := by
  induction choices with
  | nil => intro n; simp [streamLoop, accountingCalls]
  | cons s rest ih =>
    intro n
    cases s with
    | notification event writeOk =>
      cases ht : translateEvent event with
      | fails => simp [streamLoop, ht, accountingCalls]
      | nilDereference => simp [streamLoop, ht, accountingCalls]
      | event name data =>
        cases writeOk with
        | true =>
          have h := ih (wrapInt (n + 1))
          simp only [accountingCalls] at h
          simp [streamLoop, ht, accountingCalls, Run.after, h]
        | false =>
          have h := ih n
          simp only [accountingCalls] at h
          simp [streamLoop, ht, accountingCalls, Run.after, h]
    | watchError err => simp [streamLoop, accountingCalls]
    | stop => simp [streamLoop, accountingCalls]
    | closed => simp [streamLoop, accountingCalls]

/-- The loop sends on the cancel channel once when it leaves through the stop
case, and never otherwise. -/
theorem cancelWrites_streamLoop (choices : List Selected) :
    ∀ n : Int, cancelWrites (streamLoop n choices).trace =
      if (streamLoop n choices).outcome = .externallyStopped then 1 else 0 := by
  induction choices with
  | nil => intro n; simp [streamLoop, cancelWrites]
  | cons s rest ih =>
    intro n
    cases s with
    | notification event writeOk =>
      cases ht : translateEvent event with
      | fails => simp [streamLoop, ht, cancelWrites]
      | nilDereference => simp [streamLoop, ht, cancelWrites]
      | event name data =>
        cases writeOk with
        | true =>
          have h := ih (wrapInt (n + 1))
          simp only [cancelWrites] at h
          simp [streamLoop, ht, cancelWrites, Run.after, h]
        | false =>
          have h := ih n
          simp only [cancelWrites] at h
          simp [streamLoop, ht, cancelWrites, Run.after, h]
    | watchError err => simp [streamLoop, cancelWrites]
    | stop => simp [streamLoop, cancelWrites]
    | closed => simp [streamLoop, cancelWrites]

/-- When the loop leaves through the stop case, the send on the cancel channel
is the last thing it does. -/
theorem streamLoop_externallyStopped (choices : List Selected) :
    ∀ n : Int, (streamLoop n choices).outcome = .externallyStopped →
      ∃ t, (streamLoop n choices).trace = t ++ [.cancelSend true] ∧ cancelWrites t = 0 := by
  induction choices with
  | nil => intro n h; simp [streamLoop] at h
  | cons s rest ih =>
    intro n h
    cases s with
    | notification event writeOk =>
      cases ht : translateEvent event with
      | fails => simp [streamLoop, ht] at h
      | nilDereference => simp [streamLoop, ht] at h
      | event name data =>
        cases writeOk with
        | true =>
          rw [streamLoop_written n event rest name data ht] at h ⊢
          obtain ⟨t, ht1, ht2⟩ := ih _ (by simpa [Run.after] using h)
          refine ⟨[.eventWrite ⟨Itoa n, name, data⟩ true, .Flush] ++ t, ?_, ?_⟩
          · simp [Run.after, ht1]
          · simp only [cancelWrites] at ht2 ⊢
            simpa using ht2
        | false =>
          rw [streamLoop_writeFailed n event rest name data ht] at h ⊢
          obtain ⟨t, ht1, ht2⟩ := ih _ (by simpa [Run.after] using h)
          refine ⟨[.eventWrite ⟨Itoa n, name, data⟩ false] ++ t, ?_, ?_⟩
          · simp [Run.after, ht1]
          · simp only [cancelWrites] at ht2 ⊢
            simpa using ht2
    | watchError err => simp [streamLoop] at h
    | stop => exact ⟨[.logInfo "event-stream-stopped"], by simp [streamLoop], by simp [cancelWrites]⟩
    | closed => simp [streamLoop] at h

/-- The loop panics only on a notification whose translation dereferences nil. -/
theorem streamLoop_nilDereference_mem (choices : List Selected) :
    ∀ n : Int, (streamLoop n choices).outcome = .nilDereference →
      ∃ event writeOk, Selected.notification event writeOk ∈ choices ∧
        translateEvent event = .nilDereference := by
  induction choices with
  | nil => intro n h; simp [streamLoop] at h
  | cons s rest ih =>
    intro n h
    cases s with
    | notification event writeOk =>
      cases ht : translateEvent event with
      | fails => simp [streamLoop, ht] at h
      | nilDereference => exact ⟨event, writeOk, by simp, ht⟩
      | event name data =>
        cases writeOk with
        | true =>
          rw [streamLoop_written n event rest name data ht] at h
          obtain ⟨e, w, hm, he⟩ := ih _ (by simpa [Run.after] using h)
          exact ⟨e, w, List.mem_cons_of_mem _ hm, he⟩
        | false =>
          rw [streamLoop_writeFailed n event rest name data ht] at h
          obtain ⟨e, w, hm, he⟩ := ih _ (by simpa [Run.after] using h)
          exact ⟨e, w, List.mem_cons_of_mem _ hm, he⟩
    | watchError err => simp [streamLoop] at h
    | stop => simp [streamLoop] at h
    | closed => simp [streamLoop] at h

/-- Every event the loop tries to write is named Upsert or Delete. -/
theorem attemptedEvents_streamLoop_name (choices : List Selected) :
    ∀ n : Int, ∀ e ∈ attemptedEvents (streamLoop n choices).trace,
      e.Name = "Upsert" ∨ e.Name = "Delete" := by
  induction choices with
  | nil => intro n e he; simp [streamLoop, attemptedEvents] at he
  | cons s rest ih =>
    intro n e he
    cases s with
    | notification event writeOk =>
      cases ht : translateEvent event with
      | fails => simp [streamLoop, ht, attemptedEvents] at he
      | nilDereference => simp [streamLoop, ht, attemptedEvents] at he
      | event name data =>
        have hn := translateEvent_name event name data ht
        cases writeOk with
        | true =>
          have h := ih (wrapInt (n + 1)) e
          simp only [attemptedEvents] at h
          simp [streamLoop, ht, attemptedEvents, Run.after] at he
          rcases he with rfl | he
          · exact hn
          · exact h (by simpa using he)
        | false =>
          have h := ih n e
          simp only [attemptedEvents] at h
          simp [streamLoop, ht, attemptedEvents, Run.after] at he
          rcases he with rfl | he
          · exact hn
          · exact h (by simpa using he)
    | watchError err => simp [streamLoop, attemptedEvents] at he
    | stop => simp [streamLoop, attemptedEvents] at he
    | closed => simp [streamLoop, attemptedEvents] at he


/-! ## Lemmas on the sequence ids -/

/-- From the value `n` of `eventID`, the events the transport accepts carry the
ids `n`, `n + 1`, ... in decimal. -/
theorem writtenEvents_streamLoop_ids (choices : List Selected) :
    ∀ n : Nat, n + choices.length < 2 ^ 63 →
      (writtenEvents (streamLoop (n : Int) choices).trace).map Event.ID =
        (List.range' n (writtenEvents (streamLoop (n : Int) choices).trace).length).map
          Nat.repr := by
  induction choices with
  | nil => intro n _; simp [streamLoop, writtenEvents]
  | cons s rest ih =>
    intro n hn
    simp only [List.length_cons] at hn
    cases s with
    | notification event writeOk =>
      cases ht : translateEvent event with
      | fails => simp [streamLoop, ht, writtenEvents]
      | nilDereference => simp [streamLoop, ht, writtenEvents]
      | event name data =>
        cases writeOk with
        | true =>
          have h := ih (n + 1) (by omega)
          rw [streamLoop_written (n : Int) event rest name data ht,
            wrapInt_succ n (by omega)]
          simp only [writtenEvents, Nat.cast_succ] at h
          simp [writtenEvents, Run.after, List.range'_succ, Itoa_natCast, h]
        | false =>
          have h := ih n (by omega)
          rw [streamLoop_writeFailed (n : Int) event rest name data ht]
          simp only [writtenEvents] at h
          simp [writtenEvents, Run.after, h]
    | watchError err => simp [streamLoop, writtenEvents]
    | stop => simp [streamLoop, writtenEvents]
    | closed => simp [streamLoop, writtenEvents]

/-- When every write succeeds, the loop writes, from the value `n` of `eventID`,
the wire events of the notifications up to the first that does not translate. -/
theorem writtenEvents_streamLoop_notifications (notifs : List WatchEvent) :
    ∀ n : Nat, n + notifs.length < 2 ^ 63 →
      (writtenEvents
          (streamLoop (n : Int) (notifs.map fun e => Selected.notification e true)).trace).map
          some =
        ((notifs.takeWhile translatable).enumFrom n).map fun p => wireEvent p.1 p.2 := by
  induction notifs with
  | nil => intro n _; simp [streamLoop, writtenEvents]
  | cons event rest ih =>
    intro n hn
    simp only [List.length_cons] at hn
    cases ht : translateEvent event with
    | fails => simp [streamLoop, ht, writtenEvents, translatable]
    | nilDereference => simp [streamLoop, ht, writtenEvents, translatable]
    | event name data =>
      have h := ih (n + 1) (by omega)
      rw [List.map_cons, streamLoop_written (n : Int) event _ name data ht,
        wrapInt_succ n (by omega)]
      have hw : wireEvent n event = some ⟨Nat.repr n, name, data⟩ := by simp [wireEvent, ht]
      simp only [writtenEvents, Nat.cast_succ] at h
      simp [writtenEvents, Run.after, translatable, ht, hw, List.enumFrom_cons,
        Itoa_natCast, h]


/-! ## Lemmas on the handler -/

theorem EventStream_unauthorized (scope : String) (h : EventStreamHandler) (req : Request)
    (choices : List Selected) (err : String)
    (hauth : h.DecodeToken (req.Header "Authorization") scope = some err) :
    EventStream scope h req choices = ⟨[.unauthorizedError err], .unauthorized⟩ := by
  simp [EventStream, hauth]

theorem EventStream_authorized (scope : String) (h : EventStreamHandler) (req : Request)
    (choices : List Selected)
    (hauth : h.DecodeToken (req.Header "Authorization") scope = none) :
    EventStream scope h req choices =
      ⟨openStream ++ (streamLoop 0 choices).trace ++ deferred (streamLoop 0 choices).outcome,
        (streamLoop 0 choices).outcome⟩ := by
  simp [EventStream, hauth]

theorem writtenEvents_EventStream (scope : String) (h : EventStreamHandler) (req : Request)
    (choices : List Selected)
    (hauth : h.DecodeToken (req.Header "Authorization") scope = none) :
    writtenEvents (EventStream scope h req choices).trace =
      writtenEvents (streamLoop 0 choices).trace := by
  rw [EventStream_authorized scope h req choices hauth]
  cases hf : (streamLoop 0 choices).outcome.finished <;>
    simp [writtenEvents, openStream, deferred, hf]

theorem attemptedEvents_EventStream (scope : String) (h : EventStreamHandler) (req : Request)
    (choices : List Selected) :
    attemptedEvents (EventStream scope h req choices).trace = [] ∨
      attemptedEvents (EventStream scope h req choices).trace =
        attemptedEvents (streamLoop 0 choices).trace := by
  cases hauth : h.DecodeToken (req.Header "Authorization") scope with
  | some err =>
    left
    rw [EventStream_unauthorized scope h req choices err hauth]
    simp [attemptedEvents]
  | none =>
    right
    rw [EventStream_authorized scope h req choices hauth]
    cases hf : (streamLoop 0 choices).outcome.finished <;>
      simp [attemptedEvents, openStream, deferred, hf]

theorem cancelWrites_EventStream (scope : String) (h : EventStreamHandler) (req : Request)
    (choices : List Selected)
    (hauth : h.DecodeToken (req.Header "Authorization") scope = none) :
    cancelWrites (EventStream scope h req choices).trace =
      cancelWrites (streamLoop 0 choices).trace := by
  rw [EventStream_authorized scope h req choices hauth]
  cases hf : (streamLoop 0 choices).outcome.finished <;>
    simp [cancelWrites, openStream, deferred, hf]

/-- An authorized handler that has left the function has called the accounting
sink twice: the increment, then the decrement. -/
theorem accountingCalls_finished (scope : String) (h : EventStreamHandler) (req : Request)
    (choices : List Selected)
    (hauth : h.DecodeToken (req.Header "Authorization") scope = none)
    (hfin : (EventStream scope h req choices).outcome.finished = true) :
    accountingCalls (EventStream scope h req choices).trace =
      [("total_subscriptions", 1), ("total_subscriptions", -1)] := by
  rw [EventStream_authorized scope h req choices hauth] at hfin ⊢
  have hl := accountingCalls_streamLoop choices 0
  simp only [accountingCalls] at hl
  simp only at hfin
  simp [accountingCalls, openStream, deferred, hfin, hl]

/-- An authorized handler that is still in its loop has called the accounting
sink once: the increment. -/
theorem accountingCalls_streaming (scope : String) (h : EventStreamHandler) (req : Request)
    (choices : List Selected)
    (hauth : h.DecodeToken (req.Header "Authorization") scope = none)
    (hfin : (EventStream scope h req choices).outcome.finished = false) :
    accountingCalls (EventStream scope h req choices).trace = [("total_subscriptions", 1)] := by
  rw [EventStream_authorized scope h req choices hauth] at hfin ⊢
  have hl := accountingCalls_streamLoop choices 0
  simp only [accountingCalls] at hl
  simp only at hfin
  simp [accountingCalls, openStream, deferred, hfin, hl]

/-- A handler that is still in its loop passed authorization. -/
theorem authorized_of_streaming (scope : String) (h : EventStreamHandler) (req : Request)
    (choices : List Selected)
    (hfin : (EventStream scope h req choices).outcome.finished = false) :
    h.DecodeToken (req.Header "Authorization") scope = none := by
  cases hauth : h.DecodeToken (req.Header "Authorization") scope with
  | none => rfl
  | some err =>
    rw [EventStream_unauthorized scope h req choices err hauth] at hfin
    simp [Outcome.finished] at hfin

theorem payloadRead_eq (event : WatchEvent) :
    payloadRead event =
      match event.Type_ with
      | .CreateEvent => some .Node
      | .UpdateEvent => some .Node
      | .DeleteEvent => some .PrevNode
      | .ExpireEvent => some .PrevNode
      | _ => none := by
  obtain ⟨ty, n, p⟩ := event
  cases ty <;> simp [payloadRead, stringifyEventType, switchEventType]

theorem wellFormed_deref (event : WatchEvent) (hwf : event.wellFormed = true) (ref : NodeRef)
    (href : payloadRead event = some ref) : (event.deref ref).isSome = true := by
  obtain ⟨ty, n, p⟩ := event
  cases ty <;>
    simp [payloadRead, stringifyEventType, switchEventType] at href <;>
    subst href <;>
    simpa [WatchEvent.wellFormed, WatchEvent.deref] using hwf


/-! ## The claims -/

/-- C1: the translation done by `EventStream` (`stringifyEventType`, then the
`eventType` switch) gives "Upsert" with the new value for Create and for Update,
"Delete" with the previous value for Delete and for Expire, fails for Invalid
and for every kind outside these five; so every event the handler writes is
named "Upsert" or "Delete". -/
theorem translation_mapping :
    (∀ (node : StoreNode) (prev : Option StoreNode),
      translateEvent ⟨.CreateEvent, some node, prev⟩ = .event "Upsert" node.Value) ∧
    (∀ (node : StoreNode) (prev : Option StoreNode),
      translateEvent ⟨.UpdateEvent, some node, prev⟩ = .event "Upsert" node.Value) ∧
    (∀ (node : Option StoreNode) (prev : StoreNode),
      translateEvent ⟨.DeleteEvent, node, some prev⟩ = .event "Delete" prev.Value) ∧
    (∀ (node : Option StoreNode) (prev : StoreNode),
      translateEvent ⟨.ExpireEvent, node, some prev⟩ = .event "Delete" prev.Value) ∧
    (∀ (node prev : Option StoreNode), translateEvent ⟨.InvalidEvent, node, prev⟩ = .fails) ∧
    (∀ (code : Nat) (node prev : Option StoreNode),
      translateEvent ⟨.other code, node, prev⟩ = .fails) ∧
    (∀ (scope : String) (h : EventStreamHandler) (req : Request) (choices : List Selected),
      ∀ e ∈ attemptedEvents (EventStream scope h req choices).trace,
        e.Name = "Upsert" ∨ e.Name = "Delete") := by
  refine ⟨?_, ?_, ?_, ?_, ?_, ?_, ?_⟩
  · intro node prev
    simp [translateEvent, stringifyEventType, switchEventType, WatchEvent.deref]
  · intro node prev
    simp [translateEvent, stringifyEventType, switchEventType, WatchEvent.deref]
  · intro node prev
    simp [translateEvent, stringifyEventType, switchEventType, WatchEvent.deref]
  · intro node prev
    simp [translateEvent, stringifyEventType, switchEventType, WatchEvent.deref]
  · intro node prev
    simp [translateEvent, stringifyEventType]
  · intro code node prev
    simp [translateEvent, stringifyEventType]
  · intro scope h req choices e he
    rcases attemptedEvents_EventStream scope h req choices with h0 | h1
    · rw [h0] at he
      simp at he
    · rw [h1] at he
      exact attemptedEvents_streamLoop_name choices 0 e he

/-- C1 on a Create notification with payload "route-1" and on the event written
for it. -/
theorem translation_mapping_witness :
    translateEvent created = .event "Upsert" route1 ∧
      ((⟨"0", "Upsert", route1⟩ : Event).Name = "Upsert" ∨
        (⟨"0", "Upsert", route1⟩ : Event).Name = "Delete") :=
  ⟨translation_mapping.1 ⟨route1⟩ none,
    translation_mapping.2.2.2.2.2.2 "route.admin" acceptAll someRequest
      [.notification created true] ⟨"0", "Upsert", route1⟩ (by decide)⟩

/-- C2: in an authorized subscription the `k`-th event the transport accepts,
counting from 0, carries the decimal string of `k` as its id: the ids start at 0
and go up by one per accepted event, without gap or repeat. This holds whatever
the choices of the `select`, so also when every write succeeds. The bound on the
number of rounds keeps `eventID` within the range of a Go `int`. -/
theorem sequence_ids (scope : String) (h : EventStreamHandler) (req : Request)
    (choices : List Selected)
    (hauth : h.DecodeToken (req.Header "Authorization") scope = none)
    (hlen : choices.length < 2 ^ 63) :
    (writtenEvents (EventStream scope h req choices).trace).map Event.ID =
        (List.range (writtenEvents (EventStream scope h req choices).trace).length).map
          Nat.repr ∧
      ∀ (k : Nat) (hk : k < (writtenEvents (EventStream scope h req choices).trace).length),
        ((writtenEvents (EventStream scope h req choices).trace).get ⟨k, hk⟩).ID =
          Nat.repr k := by
  have hids : (writtenEvents (EventStream scope h req choices).trace).map Event.ID =
      (List.range (writtenEvents (EventStream scope h req choices).trace).length).map
        Nat.repr := by
    rw [writtenEvents_EventStream scope h req choices hauth]
    have h0 := writtenEvents_streamLoop_ids choices 0 (by simpa using hlen)
    rw [List.range_eq_range']
    exact_mod_cast h0
  refine ⟨hids, ?_⟩
  intro k hk
  have hget := congrArg (fun l => l[k]?) hids
  simp only [List.getElem?_map] at hget
  rw [List.getElem?_eq_getElem hk, List.getElem?_range hk] at hget
  simpa using hget

/-- C2 on the scenario Create, Update, Delete with every write accepted: the
three events carry the ids "0", "1", "2". -/
theorem sequence_ids_witness :
    (writtenEvents (EventStream "route.admin" acceptAll someRequest
        [.notification created true, .notification updated true,
          .notification deleted true]).trace).map Event.ID =
      ["0", "1", "2"] :=
  ((sequence_ids "route.admin" acceptAll someRequest
      [.notification created true, .notification updated true, .notification deleted true]
      rfl (by decide)).1).trans (by decide)


/-- C8: when the watch channel delivers the notifications `notifs` and every
write succeeds, the events the handler writes are, one for one and in the order
received, the wire events of the longest prefix of `notifs` whose notifications
all translate, the `i`-th of them numbered `i`. The bound on the number of
notifications keeps `eventID` within the range of a Go `int`. -/
theorem events_in_order (scope : String) (h : EventStreamHandler) (req : Request)
    (notifs : List WatchEvent)
    (hauth : h.DecodeToken (req.Header "Authorization") scope = none)
    (hlen : notifs.length < 2 ^ 63) :
    (writtenEvents
        (EventStream scope h req (notifs.map fun e => Selected.notification e true)).trace).map
        some =
      ((notifs.takeWhile translatable).enum).map fun p => wireEvent p.1 p.2 := by
  rw [writtenEvents_EventStream scope h req _ hauth]
  have h0 := writtenEvents_streamLoop_notifications notifs 0 (by simpa using hlen)
  rw [List.enum]
  exact_mod_cast h0

/-- C8 on the scenario of the spec: Create "route-1", Update "route-1-v2" and
Delete with previous value "route-1-v2" are written as (0, Upsert, "route-1"),
(1, Upsert, "route-1-v2"), (2, Delete, "route-1-v2"). -/
theorem events_in_order_witness :
    (writtenEvents
        (EventStream "route.admin" acceptAll someRequest
          ([created, updated, deleted].map fun e => Selected.notification e true)).trace).map
        some =
      [some ⟨"0", "Upsert", route1⟩, some ⟨"1", "Upsert", route1v2⟩,
        some ⟨"2", "Delete", route1v2⟩] :=
  (events_in_order "route.admin" acceptAll someRequest [created, updated, deleted]
    rfl (by decide)).trans (by decide)

/-- C3, at the input where the claim fails: after a notification whose write the
transport refuses, the handler is still in its loop with `eventID` 0, and the
only accounting call made is the increment. -/
theorem write_failure_keeps_subscription_counted :
    (EventStream "route.admin" acceptAll someRequest
        [.notification created false]).outcome = .streaming 0 ∧
      accountingCalls (EventStream "route.admin" acceptAll someRequest
        [.notification created false]).trace = [("total_subscriptions", 1)] := by
  decide

/-- C4, at the input where the claim fails: after a write the transport refuses,
the handler takes the next notification from the watch channel and writes an
event for it, under the id of the refused one, and stays in its loop. -/
theorem write_failure_keeps_consuming :
    EventStream "route.admin" acceptAll someRequest
        [.notification created false, .notification updated true] =
      ⟨openStream ++
          [.eventWrite ⟨"0", "Upsert", route1⟩ false,
            .eventWrite ⟨"0", "Upsert", route1v2⟩ true, .Flush],
        .streaming 1⟩ := by
  decide

/-- C5: when the handler, still in its loop after the choices `pre`, receives a
notification of the Invalid kind or of an unknown kind, it returns at once: all
it does after the effects of `pre` is the decrement of the subscription count.
No event is written for that notification or a later one, nothing is flushed,
and nothing is sent on the cancel channel. -/
theorem invalid_notification_terminates (scope : String) (h : EventStreamHandler)
    (req : Request) (pre rest : List Selected) (event : WatchEvent) (writeOk : Bool)
    (hstream : (EventStream scope h req pre).outcome.finished = false)
    (hbad : event.Type_ = .InvalidEvent ∨ ∃ code, event.Type_ = .other code) :
    (EventStream scope h req (pre ++ .notification event writeOk :: rest)).outcome =
        .translationFailed ∧
      (EventStream scope h req (pre ++ .notification event writeOk :: rest)).trace =
        (EventStream scope h req pre).trace ++ [.GaugeDelta "total_subscriptions" (-1)] ∧
      attemptedEvents
          (EventStream scope h req (pre ++ .notification event writeOk :: rest)).trace =
        attemptedEvents (EventStream scope h req pre).trace ∧
      cancelWrites
          (EventStream scope h req (pre ++ .notification event writeOk :: rest)).trace = 0 := by
  have hauth := authorized_of_streaming scope h req pre hstream
  have hfails : translateEvent event = .fails := by
    obtain ⟨ty, n, p⟩ := event
    rcases hbad with hb | ⟨code, hb⟩ <;> simp only at hb <;> subst hb <;>
      simp [translateEvent, stringifyEventType]
  rw [EventStream_authorized scope h req pre hauth] at hstream
  simp only at hstream
  obtain ⟨m, hm⟩ : ∃ m, (streamLoop 0 pre).outcome = .streaming m := by
    cases ho : (streamLoop 0 pre).outcome <;> simp [ho, Outcome.finished] at hstream
    exact ⟨_, rfl⟩
  have hrun : streamLoop 0 (pre ++ .notification event writeOk :: rest) =
      ⟨(streamLoop 0 pre).trace, .translationFailed⟩ := by
    rw [streamLoop_append pre _ 0 m hm, streamLoop_fails m event writeOk rest hfails]
    simp [Run.after]
  have htrace : (EventStream scope h req (pre ++ .notification event writeOk :: rest)).trace =
      (EventStream scope h req pre).trace ++ [.GaugeDelta "total_subscriptions" (-1)] := by
    rw [EventStream_authorized scope h req _ hauth, EventStream_authorized scope h req pre hauth,
      hrun, hm]
    simp [deferred, Outcome.finished]
  refine ⟨?_, htrace, ?_, ?_⟩
  · rw [EventStream_authorized scope h req _ hauth, hrun]
  · rw [htrace]
    simp [attemptedEvents]
  · rw [cancelWrites_EventStream scope h req _ hauth, hrun]
    have hc := cancelWrites_streamLoop pre 0
    rw [hm] at hc
    simpa using hc

/-- C5 on the scenario of the spec: after a Create, an Invalid notification ends
the stream; the Update behind it is not written. -/
theorem invalid_notification_terminates_witness :
    (EventStream "route.admin" acceptAll someRequest
        [.notification created true, .notification invalid true,
          .notification updated true]).trace =
      openStream ++ [.eventWrite ⟨"0", "Upsert", route1⟩ true, .Flush,
        .GaugeDelta "total_subscriptions" (-1)] :=
  ((invalid_notification_terminates "route.admin" acceptAll someRequest
      [.notification created true] [.notification updated true] invalid true
      (by decide) (Or.inl rfl)).2.1).trans (by decide)


/-- C6: when the token decoder rejects the Authorization header for the admin
scope, the handler writes the unauthorized response and returns: it opens no
watch, makes no accounting call, sets no header, writes no status 200 and
writes no event. -/
theorem unauthorized_does_nothing_else (scope : String) (h : EventStreamHandler)
    (req : Request) (choices : List Selected) (err : String)
    (hauth : h.DecodeToken (req.Header "Authorization") scope = some err) :
    EventStream scope h req choices = ⟨[.unauthorizedError err], .unauthorized⟩ ∧
      Effect.WatchRouteChanges ∉ (EventStream scope h req choices).trace ∧
      accountingCalls (EventStream scope h req choices).trace = [] ∧
      (∀ key value, Effect.HeaderAdd key value ∉ (EventStream scope h req choices).trace) ∧
      Effect.WriteHeader 200 ∉ (EventStream scope h req choices).trace ∧
      attemptedEvents (EventStream scope h req choices).trace = [] := by
  rw [EventStream_unauthorized scope h req choices err hauth]
  simp [accountingCalls, attemptedEvents]

/-- C6 on a handler that rejects every credential, with notifications pending. -/
theorem unauthorized_does_nothing_else_witness :
    EventStream "route.admin" rejectAll someRequest [.notification created true, .stop] =
      ⟨[.unauthorizedError "token invalid"], .unauthorized⟩ :=
  (unauthorized_does_nothing_else "route.admin" rejectAll someRequest
    [.notification created true, .stop] "token invalid" rfl).1

/-- C7: in a run of an authorized subscription the number of sends on the cancel
channel is 1 when the handler left through the stop case and 0 otherwise; the
send is the last effect before the deferred decrement, hence before the return;
and the handler leaves through the stop case whenever the stop signal is
selected while it is still in its loop. -/
theorem cancel_channel_writes (scope : String) (h : EventStreamHandler) (req : Request)
    (choices : List Selected)
    (hauth : h.DecodeToken (req.Header "Authorization") scope = none) :
    cancelWrites (EventStream scope h req choices).trace =
        (if (EventStream scope h req choices).outcome = .externallyStopped then 1 else 0) ∧
      ((EventStream scope h req choices).outcome = .externallyStopped →
        ∃ t, (EventStream scope h req choices).trace =
            t ++ [.cancelSend true, .GaugeDelta "total_subscriptions" (-1)] ∧
          cancelWrites t = 0) ∧
      (∀ pre rest, choices = pre ++ Selected.stop :: rest →
        (EventStream scope h req pre).outcome.finished = false →
        (EventStream scope h req choices).outcome = .externallyStopped) := by
  refine ⟨?_, ?_, ?_⟩
  · rw [cancelWrites_EventStream scope h req choices hauth,
      EventStream_authorized scope h req choices hauth]
    exact cancelWrites_streamLoop choices 0
  · intro hstop
    rw [EventStream_authorized scope h req choices hauth] at hstop ⊢
    simp only at hstop
    obtain ⟨t, ht1, ht2⟩ := streamLoop_externallyStopped choices 0 hstop
    refine ⟨openStream ++ t, ?_, ?_⟩
    · simp [ht1, hstop, deferred, Outcome.finished]
    · simp only [cancelWrites] at ht2 ⊢
      simpa [openStream] using ht2
  · intro pre rest hc hstream
    rw [EventStream_authorized scope h req pre hauth] at hstream
    simp only at hstream
    obtain ⟨m, hm⟩ : ∃ m, (streamLoop 0 pre).outcome = .streaming m := by
      cases ho : (streamLoop 0 pre).outcome <;> simp [ho, Outcome.finished] at hstream
      exact ⟨_, rfl⟩
    rw [EventStream_authorized scope h req choices hauth, hc,
      streamLoop_append pre _ 0 m hm]
    simp [streamLoop, Run.after]

/-- C7 on the scenario of the spec: the stop signal fires after one event. The
handler sends once on the cancel channel. -/
theorem cancel_channel_writes_witness :
    cancelWrites (EventStream "route.admin" acceptAll someRequest
        [.notification created true, .stop]).trace = 1 :=
  ((cancel_channel_writes "route.admin" acceptAll someRequest
      [.notification created true, .stop] rfl).1).trans (by decide)

/-- C9: when authorization succeeds, what the handler does before it waits for
the first notification is, in this order: open the watch, increment the
subscription count, add the three headers, write status 200, flush. Every run
starts with these effects, and none of them writes an event. -/
theorem stream_opening (scope : String) (h : EventStreamHandler) (req : Request)
    (choices : List Selected)
    (hauth : h.DecodeToken (req.Header "Authorization") scope = none) :
    EventStream scope h req [] =
        ⟨[.WatchRouteChanges,
          .GaugeDelta "total_subscriptions" 1,
          .HeaderAdd "Content-Type" "text/event-stream; charset=utf-8",
          .HeaderAdd "Cache-Control" "no-cache, no-store, must-revalidate",
          .HeaderAdd "Connection" "keep-alive",
          .WriteHeader 200,
          .Flush], .streaming 0⟩ ∧
      (∃ t, (EventStream scope h req choices).trace = (EventStream scope h req []).trace ++ t) ∧
      attemptedEvents (EventStream scope h req []).trace = [] := by
  have h0 : EventStream scope h req [] = ⟨openStream, .streaming 0⟩ := by
    rw [EventStream_authorized scope h req [] hauth]
    simp [streamLoop, deferred, Outcome.finished]
  refine ⟨by rw [h0]; rfl, ?_, ?_⟩
  · rw [h0, EventStream_authorized scope h req choices hauth]
    exact ⟨(streamLoop 0 choices).trace ++ deferred (streamLoop 0 choices).outcome, by simp⟩
  · rw [h0]
    simp [attemptedEvents, openStream]

/-- C9 on a run in which a notification follows: the seven opening effects come
first. -/
theorem stream_opening_witness :
    (EventStream "route.admin" acceptAll someRequest [.notification created true]).trace.take 7 =
      [.WatchRouteChanges,
        .GaugeDelta "total_subscriptions" 1,
        .HeaderAdd "Content-Type" "text/event-stream; charset=utf-8",
        .HeaderAdd "Cache-Control" "no-cache, no-store, must-revalidate",
        .HeaderAdd "Connection" "keep-alive",
        .WriteHeader 200,
        .Flush] := by
  obtain ⟨h0, ⟨t, ht⟩, _⟩ :=
    stream_opening "route.admin" acceptAll someRequest [.notification created true] rfl
  rw [ht, h0]
  rfl

/-- C10: when every notification delivered satisfies the invariant of the data
model, the handler never dereferences a nil node: it does not panic, and for
each notification the node read is the new value for Create and Update, the
previous value for Delete and Expire, present by the invariant, and no node at
all for Invalid and for unknown kinds. -/
theorem payload_reads_present (scope : String) (h : EventStreamHandler) (req : Request)
    (choices : List Selected)
    (hwf : ∀ event writeOk, Selected.notification event writeOk ∈ choices →
      event.wellFormed = true) :
    (EventStream scope h req choices).outcome ≠ .nilDereference ∧
      ∀ event writeOk, Selected.notification event writeOk ∈ choices →
        translateEvent event ≠ .nilDereference ∧
        (payloadRead event =
          match event.Type_ with
          | .CreateEvent => some .Node
          | .UpdateEvent => some .Node
          | .DeleteEvent => some .PrevNode
          | .ExpireEvent => some .PrevNode
          | _ => none) ∧
        (∀ ref, payloadRead event = some ref → (event.deref ref).isSome = true) := by
  have hno : ∀ event writeOk, Selected.notification event writeOk ∈ choices →
      translateEvent event ≠ .nilDereference := by
    intro event writeOk hmem hnil
    obtain ⟨ref, href, hderef⟩ := (translateEvent_nilDereference_iff event).1 hnil
    have hsome := wellFormed_deref event (hwf event writeOk hmem) ref href
    rw [hderef] at hsome
    simp at hsome
  refine ⟨?_, ?_⟩
  · intro hout
    cases hauth : h.DecodeToken (req.Header "Authorization") scope with
    | some err =>
      rw [EventStream_unauthorized scope h req choices err hauth] at hout
      simp at hout
    | none =>
      rw [EventStream_authorized scope h req choices hauth] at hout
      simp only at hout
      obtain ⟨event, writeOk, hmem, hnil⟩ := streamLoop_nilDereference_mem choices 0 hout
      exact hno event writeOk hmem hnil
  · intro event writeOk hmem
    exact ⟨hno event writeOk hmem, payloadRead_eq event,
      wellFormed_deref event (hwf event writeOk hmem)⟩

/-- C10 on the scenario Create, Update, Delete, Invalid, each well formed: the
handler returns on the Invalid notification without a panic. -/
theorem payload_reads_present_witness :
    (EventStream "route.admin" acceptAll someRequest
        [.notification created true, .notification updated true,
          .notification deleted true, .notification invalid true]).outcome ≠
      .nilDereference :=
  (payload_reads_present "route.admin" acceptAll someRequest
    [.notification created true, .notification updated true,
      .notification deleted true, .notification invalid true]
    (by
      intro event writeOk hmem
      simp only [List.mem_cons, List.mem_singleton, Selected.notification.injEq,
        List.mem_nil_iff, or_false] at hmem
      rcases hmem with ⟨rfl, _⟩ | ⟨rfl, _⟩ | ⟨rfl, _⟩ | ⟨rfl, _⟩ <;> rfl)).1

end RoutingApi
